import Mathlib

/-!
Verification development for the document-analysis backend: the text
extraction pipeline (`src/core/text_processor.py`) and the ClickHouse
storage client with its connection pool (`src/core/db_client.py`),
shallowly embedded in Lean.
-/

namespace ThirdLaw

/-! ## Text processing pipeline (src/core/text_processor.py)

The `SensitiveInfo` dataclass and `RegexHandler` scan text with two
Python regular expressions via `re.finditer`.  We embed the exact two
patterns as a small regular-expression AST together with Python's
leftmost, greedy-with-backtracking matching semantics, and `finditer`
as the non-overlapping left-to-right scan. -/

/-- Embeds the `SensitiveInfo` dataclass: one finding with its type tag,
matched substring and character position in the text. -/
structure SensitiveInfo where
  info_type : String
  value : String
  location : Nat
deriving DecidableEq

/-- Python word character for the purposes of a word boundary
(the source texts are ASCII, matching the character classes written in
the patterns): letter, digit or underscore. -/
def isWordChar (c : Char) : Bool :=
  c.isAlpha || c.isDigit || c = '_'

/-- Regular-expression fragment covering exactly the constructs used by
`RegexHandler.PATTERNS`: a literal character, a character class repeated
exactly n times, a character class repeated greedily at least n times,
an optional literal character (greedy), a word boundary, and
sequencing. -/
inductive Re where
  | chr (c : Char)
  | clsRep (p : Char → Bool) (n : Nat)
  | clsRepGe (p : Char → Bool) (n : Nat)
  | opt (c : Char)
  | wb
  | seq (a b : Re)

/-- Length of the maximal run of characters satisfying p at the front of
the list. -/
def runLen (p : Char → Bool) : List Char → Nat
  | [] => 0
  | c :: cs => if p c then runLen p cs + 1 else 0

/-- Python word boundary test at a position (true when exactly one of
the characters around the position is a word character; out of range
counts as non-word). -/
def wordBoundary (text : List Char) (pos : Nat) : Bool :=
  let before := match pos with
    | 0 => false
    | q + 1 => match text.get? q with
      | some c => isWordChar c
      | none => false
  let after := match text.get? pos with
    | some c => isWordChar c
    | none => false
  before != after

/-- All end positions at which the fragment can match starting at pos,
in Python backtracking preference order (greedy alternatives first);
the head of the list is the end position the Python engine commits to. -/
def matchEnds (text : List Char) : Re → Nat → List Nat
  | .chr c, pos =>
    match text.get? pos with
    | some d => if d = c then [pos + 1] else []
    | none => []
  | .clsRep p n, pos =>
    let seg := (text.drop pos).take n
    if seg.length = n && seg.all p then [pos + n] else []
  | .clsRepGe p n, pos =>
    let m := runLen p (text.drop pos)
    if n ≤ m then (List.range (m + 1 - n)).map (fun i => pos + m - i) else []
  | .opt c, pos =>
    match text.get? pos with
    | some d => if d = c then [pos + 1, pos] else [pos]
    | none => [pos]
  | .wb, pos => if wordBoundary text pos then [pos] else []
  | .seq a b, pos => (matchEnds text a pos).flatMap (fun e => matchEnds text b e)

/-- End position of the match the Python engine finds anchored at pos,
if any. -/
def matchAt (r : Re) (text : List Char) (pos : Nat) : Option Nat :=
  (matchEnds text r pos).head?

/-- Scan of `re.finditer`: try each start position left to right, emit a
non-overlapping (start, end) pair per match, resume after each match
(or one character further on an empty match). -/
def finditerAux (r : Re) (text : List Char) : Nat → Nat → List (Nat × Nat)
  | 0, _ => []
  | fuel + 1, pos =>
    if pos > text.length then []
    else
      match matchAt r text pos with
      | some e =>
        if pos < e then (pos, e) :: finditerAux r text fuel e
        else (pos, e) :: finditerAux r text fuel (pos + 1)
      | none => finditerAux r text fuel (pos + 1)

/-- All non-overlapping matches of the pattern in the text, left to
right, as (start, end) pairs. -/
def pyFinditer (r : Re) (text : List Char) : List (Nat × Nat) :=
  finditerAux r text (text.length + 1) 0

/-- Character class of the local part of the email pattern. -/
def emailLocalChar (c : Char) : Bool :=
  c.isAlpha || c.isDigit || c = '.' || c = '_' || c = '%' || c = '+' || c = '-'

/-- Character class of the domain part of the email pattern. -/
def emailDomainChar (c : Char) : Bool :=
  c.isAlpha || c.isDigit || c = '.' || c = '-'

/-- The email pattern of `RegexHandler.PATTERNS`. -/
def emailRe : Re :=
  .seq .wb (.seq (.clsRepGe emailLocalChar 1) (.seq (.chr '@')
    (.seq (.clsRepGe emailDomainChar 1) (.seq (.chr '.')
      (.seq (.clsRepGe Char.isAlpha 2) .wb)))))

/-- The ssn pattern of `RegexHandler.PATTERNS`. -/
def ssnRe : Re :=
  .seq .wb (.seq (.clsRep Char.isDigit 3) (.seq (.opt '-')
    (.seq (.clsRep Char.isDigit 2) (.seq (.opt '-')
      (.seq (.clsRep Char.isDigit 4) .wb)))))

/-- The ordered `PATTERNS` dictionary of `RegexHandler`: insertion order
email, then ssn. -/
def PATTERNS : List (String × Re) := [("email", emailRe), ("ssn", ssnRe)]

/-- The findings one pattern contributes in `RegexHandler.process`: one
`SensitiveInfo` per finditer match, value the matched substring,
location the match start. -/
def patternFindings (info_type : String) (r : Re) (text : String) : List SensitiveInfo :=
  (pyFinditer r text.data).map (fun se =>
    { info_type := info_type
      value := String.mk ((text.data.drop se.1).take (se.2 - se.1))
      location := se.1 })

/-- Embeds `RegexHandler.process`: iterate over `PATTERNS` in order and
append each pattern's finditer findings. -/
def regexHandler_process (text : String) : List SensitiveInfo :=
  PATTERNS.flatMap (fun pr => patternFindings pr.1 pr.2 text)

/-- A text handler's `process` method: it either returns its findings or
raises an exception carrying a message (the only effect the pipeline's
`except` clause observes). -/
abbrev Handler : Type := String → Except String (List SensitiveInfo)

/-- The `RegexHandler` instance as a pipeline handler; its `process`
never raises. -/
def regexHandler : Handler := fun text => .ok (regexHandler_process text)

/-- The handler list `PDFTextProcessor.__init__` installs. -/
def pdfTextProcessor_handlers : List Handler := [regexHandler]

/-- The for-loop of `process_text` over the handlers: run each handler
in order, extending `all_findings`; the first exception aborts the loop
and propagates to the surrounding try. -/
def runHandlers : List Handler → String → Except String (List SensitiveInfo)
  | [], _ => .ok []
  | h :: hs, text =>
    match h text with
    | .error e => .error e
    | .ok fs =>
      match runHandlers hs text with
      | .error e => .error e
      | .ok rest => .ok (fs ++ rest)

/-- One step of the `findings_by_type` dictionary update
`d[k] = d.get(k, 0) + 1`, on the insertion-ordered association list
embedding a Python dict. -/
def bumpCount (m : List (String × Nat)) (k : String) : List (String × Nat) :=
  if m.any (fun p => p.1 = k) then
    m.map (fun p => if p.1 = k then (p.1, p.2 + 1) else p)
  else m ++ [(k, 1)]

/-- The `findings_by_type` aggregation loop of `process_text`. -/
def countByType (fs : List SensitiveInfo) : List (String × Nat) :=
  fs.foldl (fun m f => bumpCount m f.info_type) []

/-- The `statistics` dict of `process_text`: `total_chars_processed` and
`handlers_used` are set before the try block; `total_findings` and
`findings_by_type` only on the success path (absent keys are `none`). -/
structure ProcessStats where
  total_chars_processed : Nat
  handlers_used : Nat
  total_findings : Option Nat
  findings_by_type : Option (List (String × Nat))
deriving DecidableEq

/-- The dict returned by `process_text`: on success it has `success`,
`findings` and `statistics` keys; on failure `success`, `error` and
`statistics` (absent keys are `none`). -/
structure ProcessResult where
  success : Bool
  error : Option String
  findings : Option (List SensitiveInfo)
  statistics : ProcessStats
deriving DecidableEq

/-- Embeds `PDFTextProcessor.process_text`: build the base statistics,
run every handler inside the try, and return either the success dict
with findings and full statistics, or the failure dict carrying the
exception message and only the base statistics. -/
def process_text (handlers : List Handler) (text : String) : ProcessResult :=
  match runHandlers handlers text with
  | .ok all_findings =>
    { success := true
      error := none
      findings := some all_findings
      statistics :=
        { total_chars_processed := text.length
          handlers_used := handlers.length
          total_findings := some all_findings.length
          findings_by_type := some (countByType all_findings) } }
  | .error e =>
    { success := false
      error := some e
      findings := none
      statistics :=
        { total_chars_processed := text.length
          handlers_used := handlers.length
          total_findings := none
          findings_by_type := none } }

/-! ## Storage client (src/core/db_client.py)

The `documents` table is embedded as a list of rows; the
`analysis_result` argument of `store_document` is embedded as the
nested optional structure the `.get(..., default)` calls read, and the
stored JSON blob is the value itself (`json.dumps`/`json.loads` round
trip).  Each public operation runs inside a catch-all `except` block;
we embed an exception raised by the pool, the connection or a query
during the operation as an optional fault injected into the operation,
and the except clause as the handler that maps it to the degraded
return value. -/

/-- Python `dict.get(k, d)` on an insertion-ordered association list. -/
def dictGetD (m : List (String × Nat)) (k : String) (d : Nat) : Nat :=
  match m.find? (fun p => p.1 = k) with
  | some p => p.2
  | none => d

/-- The part of the `statistics` block of an analysis result that
`store_document` reads; either key may be absent. -/
structure StatsBlock where
  total_findings : Option Nat
  findings_by_type : Option (List (String × Nat))
deriving DecidableEq

/-- The `analysis_result` dict passed to `store_document`; the
`statistics` block may be absent. -/
structure AnalysisResult where
  statistics : Option StatsBlock
deriving DecidableEq

/-- One row of the `documents` table. -/
structure Row where
  document_id : String
  filename : String
  upload_timestamp : Nat
  content : String
  content_length : Nat
  analysis_result : AnalysisResult
  sensitive_info_count : Nat
  email_count : Nat
  ssn_count : Nat
deriving DecidableEq

/-- The `documents` table state. -/
abbrev DB : Type := List Row

/-- The counters `store_document` denormalizes out of the analysis
result: `stats = analysis_result.get('statistics', {})`,
`findings_by_type = stats.get('findings_by_type', {})`, then
`stats.get('total_findings', 0)`, `findings_by_type.get('email', 0)`
and `findings_by_type.get('ssn', 0)`. -/
def docCounters (ar : AnalysisResult) : Nat × Nat × Nat :=
  let stats := ar.statistics.getD ⟨none, none⟩
  let findings_by_type := stats.findings_by_type.getD []
  (stats.total_findings.getD 0,
   dictGetD findings_by_type "email" 0,
   dictGetD findings_by_type "ssn" 0)

/-- The row `store_document` writes (the insert tuple, and equally the
column assignments of the update statement): timestamp taken at store
time, `content_length = len(content)`, the analysis result stored as
its JSON blob, and the three denormalized counters. -/
def mkRow (document_id filename content : String) (ar : AnalysisResult)
    (now : Nat) : Row :=
  { document_id := document_id
    filename := filename
    upload_timestamp := now
    content := content
    content_length := content.length
    analysis_result := ar
    sensitive_info_count := (docCounters ar).1
    email_count := (docCounters ar).2.1
    ssn_count := (docCounters ar).2.2 }

/-- The rows `SELECT ... WHERE document_id = id` sees. -/
def rowsWithId (db : DB) (id : String) : List Row :=
  db.filter (fun r => r.document_id = id)

/-- The column assignments of the `ALTER TABLE documents UPDATE`
statement applied to one row: on a row whose `document_id` matches,
every other column takes the new write's value; other rows are
untouched. -/
def updateRow (document_id filename content : String) (ar : AnalysisResult)
    (now : Nat) (r : Row) : Row :=
  if r.document_id = document_id then
    { mkRow document_id filename content ar now with
        document_id := r.document_id }
  else r

/-- The happy path of `store_document` on the borrowed connection:
`SELECT count() WHERE document_id = id`, then `ALTER TABLE ... UPDATE`
of every column on the matching rows when the count is positive, or an
`INSERT` of the prepared tuple when it is zero; both branches return
True.  A fault stands for an exception raised by the pool or a query
during the operation. -/
def store_documentE (db : DB) (fault : Option String)
    (document_id filename content : String) (ar : AnalysisResult)
    (now : Nat) : Except String (Bool × DB) :=
  match fault with
  | some msg => .error msg
  | none =>
    let existing := (rowsWithId db document_id).length
    if 0 < existing then
      .ok (true, db.map (updateRow document_id filename content ar now))
    else
      .ok (true, db ++ [mkRow document_id filename content ar now])

/-- Embeds `ClickHouseClient.store_document`: the happy path wrapped in
the catch-all except clause, which logs and returns False leaving the
table untouched. -/
def store_document (db : DB) (fault : Option String)
    (document_id filename content : String) (ar : AnalysisResult)
    (now : Nat) : Bool × DB :=
  match store_documentE db fault document_id filename content ar now with
  | .ok r => r
  | .error _ => (false, db)

/-- Embeds `ClickHouseClient.get_document`:
`SELECT ... WHERE document_id = id LIMIT 1`, None when no row matches;
the except clause maps any fault to None. -/
def get_document (db : DB) (fault : Option String) (document_id : String) :
    Option Row :=
  match fault with
  | some _ => none
  | none => (rowsWithId db document_id).head?

/-- The row `ORDER BY upload_timestamp DESC LIMIT 1` keeps out of a
result set: a row of maximal upload timestamp (rows tied on the key are
returned by the store in unspecified order; this model keeps the
earliest such row). -/
def maxByTimestamp : List Row → Option Row
  | [] => none
  | r :: rest =>
    match maxByTimestamp rest with
    | none => some r
    | some m => if m.upload_timestamp ≤ r.upload_timestamp then some r else some m

/-- Embeds `ClickHouseClient.get_document_by_filename`:
`SELECT ... WHERE filename = f ORDER BY upload_timestamp DESC LIMIT 1`,
None when no row matches; the except clause maps any fault to None. -/
def get_document_by_filename (db : DB) (fault : Option String)
    (filename : String) : Option Row :=
  match fault with
  | some _ => none
  | none => maxByTimestamp (db.filter (fun r => r.filename = filename))

/-- The six aggregate columns of the statistics query. -/
structure DBStats where
  total_documents : Nat
  total_sensitive_info : Nat
  total_emails : Nat
  total_ssns : Nat
  avg_sensitive_per_doc : Rat
  max_sensitive_in_doc : Nat
deriving DecidableEq

/-- Aggregate semantics of the store for the statistics query over the
whole table: count, sums, average and max of the denormalized counters.
The query always yields exactly one row, so the Python
`if not result: return {}` guard never fires; over an empty table every
aggregate is the zero of its column type and the average is taken as
zero. -/
def aggregateStats (db : DB) : DBStats :=
  let sens := db.map (fun r => r.sensitive_info_count)
  { total_documents := db.length
    total_sensitive_info := sens.sum
    total_emails := (db.map (fun r => r.email_count)).sum
    total_ssns := (db.map (fun r => r.ssn_count)).sum
    avg_sensitive_per_doc := (sens.sum : Rat) / (db.length : Rat)
    max_sensitive_in_doc := sens.foldr max 0 }

/-- Embeds `ClickHouseClient.get_statistics`: the single aggregate row
packaged as the statistics dict; the except clause maps any fault to
the empty dict, embedded as `none`. -/
def get_statistics (db : DB) (fault : Option String) : Option DBStats :=
  match fault with
  | some _ => none
  | none => some (aggregateStats db)

/-- Insertion into a list already sorted by descending timestamp. -/
def insertByTsDesc (r : Row) : List Row → List Row
  | [] => [r]
  | x :: xs =>
    if x.upload_timestamp ≤ r.upload_timestamp then r :: x :: xs
    else x :: insertByTsDesc r xs

/-- The `ORDER BY upload_timestamp DESC` result order of the listing
query. -/
def sortByTsDesc (db : DB) : List Row :=
  db.foldr insertByTsDesc []

/-- Embeds `ClickHouseClient.get_all_documents`:
`SELECT ... ORDER BY upload_timestamp DESC LIMIT l OFFSET o`; the
except clause maps any fault to the empty list. -/
def get_all_documents (db : DB) (fault : Option String)
    (limit offset : Nat) : List Row :=
  match fault with
  | some _ => []
  | none => ((sortByTsDesc db).drop offset).take limit

/-! ## Connection pool (src/core/db_client.py, ConnectionPool)

The pool's queue of available connections is embedded as a list
(front = next to be lent, `put` appends).  The finally block of
`get_connection` releases a borrowed connection: probe it with
`SELECT 1`; on success put it back; on failure try to construct a
replacement `Client` and put that instead, and swallow a construction
failure after logging it. -/

/-- A pooled connection, identified for the model by an id. -/
structure Conn where
  id : Nat
deriving DecidableEq

/-- The `self.pool.get(timeout=5)` step: lend the connection at the
front of the queue, or fail with the Empty timeout condition when the
queue stays empty. -/
def acquireConnection (pool : List Conn) : Option (Conn × List Conn) :=
  match pool with
  | [] => none
  | c :: rest => some (c, rest)

/-- The finally block of `ConnectionPool.get_connection` for a borrowed
connection: `probeOk` is the outcome of the `SELECT 1` liveness probe
on it, and `replacement` is the outcome of the `Client(**db_params)`
construction attempted when the probe fails (`none` when construction
raises).  The block never raises to the releasing caller: every branch
returns a pool state. -/
def releaseConnection (pool : List Conn) (conn : Conn) (probeOk : Bool)
    (replacement : Option Conn) : List Conn :=
  if probeOk then pool ++ [conn]
  else
    match replacement with
    | some nc => pool ++ [nc]
    | none => pool

/-! ## Auxiliary definitions used by the statements -/

/-- A sequence of offsets is in left-to-right order: each offset is at
most the next one. -/
def locationsNonDecreasing : List Nat → Bool
  | [] => true
  | [_] => true
  | a :: b :: t => decide (a ≤ b) && locationsNonDecreasing (b :: t)

/-- A handler whose `process` raises on every input. -/
def boomHandler : Handler := fun _ => .error "boom"

/-- The sample text of the extraction determinism property. -/
def sampleText : String := "Contact: a@b.com, SSN 123-45-6789"

/-- A text whose ssn match lies to the left of its email match. -/
def mixedText : String := "123-45-6789 a@b.com"

/-- A sample stored row (earlier write). -/
def demoRowA : Row :=
  { document_id := "doc-a"
    filename := "report.pdf"
    upload_timestamp := 1
    content := "x"
    content_length := 1
    analysis_result := { statistics := none }
    sensitive_info_count := 0
    email_count := 0
    ssn_count := 0 }

/-- A sample stored row (later write sharing the filename). -/
def demoRowB : Row :=
  { document_id := "doc-b"
    filename := "report.pdf"
    upload_timestamp := 5
    content := "yy"
    content_length := 2
    analysis_result := { statistics := none }
    sensitive_info_count := 0
    email_count := 0
    ssn_count := 0 }


/-! ## Helper lemmas -/

theorem runHandlers_ok : ∀ (hs : List Handler) (text : String),
    (∀ f ∈ hs, ∃ fs, f text = .ok fs) → ∃ fs, runHandlers hs text = .ok fs
  | [], _, _ => ⟨[], rfl⟩
  | f :: hs, text, h => by
    obtain ⟨fs, hf⟩ := h f (List.Mem.head _)
    obtain ⟨rest, hrest⟩ := runHandlers_ok hs text (fun g hg => h g (List.Mem.tail _ hg))
    exact ⟨fs ++ rest, by simp [runHandlers, hf, hrest]⟩

theorem runHandlers_error : ∀ (hs : List Handler) (text : String),
    (∃ f ∈ hs, ∃ e, f text = .error e) → ∃ e, runHandlers hs text = .error e
  | [], _, h => by simp at h
  | f :: hs, text, h => by
    cases hf : f text with
    | error e => exact ⟨e, by simp [runHandlers, hf]⟩
    | ok fs =>
      obtain ⟨g, hg, e, he⟩ := h
      rcases List.mem_cons.mp hg with rfl | hg2
      · rw [hf] at he; exact absurd he (by simp)
      · obtain ⟨e2, he2⟩ := runHandlers_error hs text ⟨g, hg2, e, he⟩
        exact ⟨e2, by simp [runHandlers, hf, he2]⟩

theorem process_text_stats (handlers : List Handler) (text : String) :
    (process_text handlers text).statistics.total_chars_processed = text.length ∧
    (process_text handlers text).statistics.handlers_used = handlers.length := by
  unfold process_text
  cases runHandlers handlers text <;> simp

/-! ## Claim theorems -/

/-- C2: for every input text, process_text never raises (it is a total
function into ProcessResult); if some enabled handler's process raises,
the result has success = false, and its statistics still carry
total_chars_processed = len(text) and handlers_used = the number of
enabled handlers; if no handler raises, success = true. -/
theorem process_text_structural_success (handlers : List Handler) (text : String) :
    (process_text handlers text).statistics.total_chars_processed = text.length ∧
    (process_text handlers text).statistics.handlers_used = handlers.length ∧
    ((∃ f ∈ handlers, ∃ e, f text = .error e) →
      (process_text handlers text).success = false) ∧
    ((∀ f ∈ handlers, ∃ fs, f text = .ok fs) →
      (process_text handlers text).success = true) := by
  refine ⟨(process_text_stats handlers text).1, (process_text_stats handlers text).2, ?_, ?_⟩
  · intro h
    obtain ⟨e, he⟩ := runHandlers_error handlers text h
    unfold process_text
    rw [he]
  · intro h
    obtain ⟨fs, hf⟩ := runHandlers_ok handlers text h
    unfold process_text
    rw [hf]

theorem process_text_structural_success_witness :
    (process_text [boomHandler] "ab").statistics.total_chars_processed = 2 ∧
    (process_text [boomHandler] "ab").statistics.handlers_used = 1 ∧
    (process_text [boomHandler] "ab").success = false := by
  refine ⟨?_, ?_, ?_⟩
  · exact (process_text_structural_success [boomHandler] "ab").1
  · exact (process_text_structural_success [boomHandler] "ab").2.1
  · exact (process_text_structural_success [boomHandler] "ab").2.2.1
      ⟨boomHandler, List.Mem.head _, "boom", rfl⟩

/-- C9: when some handler raises, the returned dict has the error key
holding the exception message, no findings key, and a statistics block
with only total_chars_processed and handlers_used (total_findings and
findings_by_type absent). -/
theorem process_text_failure_shape (handlers : List Handler) (text msg : String)
    (h : runHandlers handlers text = .error msg) :
    process_text handlers text =
      { success := false
        error := some msg
        findings := none
        statistics :=
          { total_chars_processed := text.length
            handlers_used := handlers.length
            total_findings := none
            findings_by_type := none } } := by
  unfold process_text
  rw [h]

theorem process_text_failure_shape_witness :
    process_text [boomHandler] "ab" =
      { success := false
        error := some "boom"
        findings := none
        statistics :=
          { total_chars_processed := 2
            handlers_used := 1
            total_findings := none
            findings_by_type := none } } :=
  process_text_failure_shape [boomHandler] "ab" "boom" rfl

/-- C3: on a fault (unavailable pool, failed connection or failed query)
raised during a storage operation, the operation degrades gracefully:
store_document returns false with the table untouched, the two lookups
return none, the listing returns the empty list, and get_statistics
returns the empty structure; no fault escapes (every operation is a
total function). -/
theorem storage_degrades_on_fault (db : DB) (msg document_id filename content : String)
    (ar : AnalysisResult) (now limit offset : Nat) :
    store_document db (some msg) document_id filename content ar now = (false, db) ∧
    get_document db (some msg) document_id = none ∧
    get_document_by_filename db (some msg) filename = none ∧
    get_all_documents db (some msg) limit offset = [] ∧
    get_statistics db (some msg) = none :=
  ⟨rfl, rfl, rfl, rfl, rfl⟩

/-- C4: on the text "Contact: a@b.com, SSN 123-45-6789" the pipeline
returns exactly one email finding with value a@b.com and exactly one
ssn finding with value 123-45-6789; findings_by_type counts one of
each and total_findings is 2. -/
theorem extraction_on_sample_text :
    ((process_text pdfTextProcessor_handlers sampleText).findings.getD []).filter
        (fun f => f.info_type = "email") = [⟨"email", "a@b.com", 9⟩] ∧
    ((process_text pdfTextProcessor_handlers sampleText).findings.getD []).filter
        (fun f => f.info_type = "ssn") = [⟨"ssn", "123-45-6789", 22⟩] ∧
    (process_text pdfTextProcessor_handlers sampleText).statistics.findings_by_type =
      some [("email", 1), ("ssn", 1)] ∧
    (process_text pdfTextProcessor_handlers sampleText).statistics.total_findings =
      some 2 := by
  decide

/-- C6: aggregate statistics over zero stored documents is the structure
with all six fields present and zero, not the empty dict and not an
error. -/
theorem statistics_empty_table :
    get_statistics [] none =
      some { total_documents := 0
             total_sensitive_info := 0
             total_emails := 0
             total_ssns := 0
             avg_sensitive_per_doc := 0
             max_sensitive_in_doc := 0 } := by
  simp [get_statistics, aggregateStats]


theorem finditerAux_start_ge (r : Re) (text : List Char) :
    ∀ (fuel pos : Nat) (pr : Nat × Nat), pr ∈ finditerAux r text fuel pos → pos ≤ pr.1 := by
  intro fuel
  induction fuel with
  | zero => intro pos pr hpr; simp [finditerAux] at hpr
  | succ fuel ih =>
    intro pos pr hpr
    unfold finditerAux at hpr
    split at hpr
    · simp at hpr
    · split at hpr
      · split at hpr
        · rcases List.mem_cons.mp hpr with h | h
          · subst h; exact Nat.le_refl _
          · have := ih _ _ h
            omega
        · rcases List.mem_cons.mp hpr with h | h
          · subst h; exact Nat.le_refl _
          · have := ih _ _ h
            omega
      · have := ih _ _ hpr
        omega

theorem locationsNonDecreasing_cons (a : Nat) (l : List Nat)
    (h1 : ∀ b, l.head? = some b → a ≤ b)
    (h2 : locationsNonDecreasing l = true) :
    locationsNonDecreasing (a :: l) = true := by
  cases l with
  | nil => rfl
  | cons b t =>
    simp only [locationsNonDecreasing, Bool.and_eq_true, decide_eq_true_eq]
    exact ⟨h1 b rfl, h2⟩

theorem finditerAux_sorted (r : Re) (text : List Char) :
    ∀ (fuel pos : Nat),
      locationsNonDecreasing ((finditerAux r text fuel pos).map (fun pr => pr.1)) = true := by
  intro fuel
  induction fuel with
  | zero => intro pos; rfl
  | succ fuel ih =>
    intro pos
    unfold finditerAux
    split
    · rfl
    · split
      · split
        · refine locationsNonDecreasing_cons _ _ ?_ (ih _)
          intro b hb
          rw [List.head?_map] at hb
          rcases Option.map_eq_some'.mp hb with ⟨pr, hpr, hb2⟩
          have hmem := List.mem_of_mem_head? hpr
          have := finditerAux_start_ge r text fuel _ _ hmem
          dsimp only at hb2 ⊢
          omega
        · refine locationsNonDecreasing_cons _ _ ?_ (ih _)
          intro b hb
          rw [List.head?_map] at hb
          rcases Option.map_eq_some'.mp hb with ⟨pr, hpr, hb2⟩
          have hmem := List.mem_of_mem_head? hpr
          have := finditerAux_start_ge r text fuel _ _ hmem
          dsimp only at hb2 ⊢
          omega
      · exact ih _

theorem patternFindings_locations (n : String) (r : Re) (text : String) :
    (patternFindings n r text).map (fun f => f.location) =
      (pyFinditer r text.data).map (fun pr => pr.1) := by
  simp [patternFindings, List.map_map]

theorem patternFindings_types (n : String) (r : Re) (text : String) :
    ∀ f ∈ patternFindings n r text, f.info_type = n := by
  intro f hf
  simp only [patternFindings, List.mem_map] at hf
  obtain ⟨se, _, rfl⟩ := hf
  rfl

theorem patternFindings_filter_self (n : String) (r : Re) (text : String) :
    (patternFindings n r text).filter (fun f => f.info_type = n) =
      patternFindings n r text := by
  apply List.filter_eq_self.mpr
  intro f hf
  simp [patternFindings_types n r text f hf]

theorem patternFindings_filter_other (n ty : String) (r : Re) (text : String)
    (h : n ≠ ty) :
    (patternFindings n r text).filter (fun f => f.info_type = ty) = [] := by
  apply List.filter_eq_nil_iff.mpr
  intro f hf
  simp [patternFindings_types n r text f hf, h]

theorem regexHandler_process_split (text : String) :
    regexHandler_process text =
      patternFindings "email" emailRe text ++ patternFindings "ssn" ssnRe text := by
  simp [regexHandler_process, PATTERNS]

/-- C7 counterexample: on the text "123-45-6789 a@b.com" the single
RegexHandler returns the email finding (location 12) before the ssn
finding (location 0), so the sequence of location offsets in return
order is not non-decreasing; the claim as stated is false. -/
theorem matcher_order_counterexample :
    locationsNonDecreasing ((regexHandler_process mixedText).map
      (fun f => f.location)) = false := by
  decide

/-- C7 amended: RegexHandler.process returns the findings grouped by
pattern (all email findings, then all ssn findings), and within each
single pattern the findings are in left-to-right text order: for every
text and every finding type, the location offsets of the findings of
that type, in return order, are non-decreasing. -/
theorem matcher_per_pattern_order (text ty : String) :
    locationsNonDecreasing
      (((regexHandler_process text).filter (fun f => f.info_type = ty)).map
        (fun f => f.location)) = true := by
  rw [regexHandler_process_split, List.filter_append]
  by_cases he : ty = "email"
  · subst he
    rw [patternFindings_filter_self,
      patternFindings_filter_other "ssn" "email" ssnRe text (by decide),
      List.append_nil, patternFindings_locations]
    exact finditerAux_sorted emailRe text.data _ _
  · by_cases hs : ty = "ssn"
    · subst hs
      rw [patternFindings_filter_other "email" "ssn" emailRe text (by decide),
        patternFindings_filter_self, List.nil_append, patternFindings_locations]
      exact finditerAux_sorted ssnRe text.data _ _
    · rw [patternFindings_filter_other "email" ty emailRe text (fun h => he h.symm),
        patternFindings_filter_other "ssn" ty ssnRe text (fun h => hs h.symm),
        List.append_nil]
      rfl


theorem updateRow_id (d f c : String) (ar : AnalysisResult) (t : Nat) (r : Row) :
    (updateRow d f c ar t r).document_id = r.document_id := by
  unfold updateRow
  split <;> rfl

theorem updateRow_match (d f c : String) (ar : AnalysisResult) (t : Nat) (r : Row)
    (h : r.document_id = d) :
    updateRow d f c ar t r = mkRow d f c ar t := by
  unfold updateRow
  rw [if_pos h, h]
  rfl

theorem updateRow_nomatch (d f c : String) (ar : AnalysisResult) (t : Nat) (r : Row)
    (h : ¬r.document_id = d) :
    updateRow d f c ar t r = r := by
  unfold updateRow
  rw [if_neg h]

theorem rowsWithId_append_one (db : DB) (r : Row) (id : String) :
    rowsWithId (db ++ [r]) id =
      rowsWithId db id ++ if r.document_id = id then [r] else [] := by
  simp only [rowsWithId, List.filter_append]
  by_cases h : r.document_id = id <;> simp [h]

theorem rowsWithId_map_update (db : DB) (d f c : String) (ar : AnalysisResult) (t : Nat) :
    rowsWithId (db.map (updateRow d f c ar t)) d =
      (rowsWithId db d).map (fun _ => mkRow d f c ar t) := by
  induction db with
  | nil => rfl
  | cons r db ih =>
    simp only [rowsWithId] at ih ⊢
    by_cases h : r.document_id = d
    · simp [List.filter_cons, h, updateRow_match d f c ar t r h, ih,
        show (mkRow d f c ar t).document_id = d from rfl]
    · simp [List.filter_cons, h, updateRow_nomatch d f c ar t r h, ih]

theorem store_document_insert (db : DB) (d f c : String) (ar : AnalysisResult) (t : Nat)
    (h : rowsWithId db d = []) :
    store_document db none d f c ar t = (true, db ++ [mkRow d f c ar t]) := by
  unfold store_document store_documentE
  rw [h]
  rfl

theorem store_document_update (db : DB) (d f c : String) (ar : AnalysisResult) (t : Nat)
    (h : 0 < (rowsWithId db d).length) :
    store_document db none d f c ar t = (true, db.map (updateRow d f c ar t)) := by
  unfold store_document store_documentE
  rw [if_pos h]

/-- C1: upsert keeps a single logical record per document_id: starting
from a table holding at most one row with id d, after two stores of d
exactly one row with id d exists, the second store updates in place
(the table does not grow), and the single retrievable record is exactly
the second write's row — its filename, content and analysis_result are
the second write's, its content_length is the length of the second
content, and its upload_timestamp is the second write's store time. -/
theorem upsert_single_record (db : DB) (d f1 c1 f2 c2 : String)
    (a1 a2 : AnalysisResult) (t1 t2 : Nat)
    (hd : (rowsWithId db d).length ≤ 1) :
    rowsWithId (store_document (store_document db none d f1 c1 a1 t1).2
        none d f2 c2 a2 t2).2 d = [mkRow d f2 c2 a2 t2] ∧
    get_document (store_document (store_document db none d f1 c1 a1 t1).2
        none d f2 c2 a2 t2).2 none d = some (mkRow d f2 c2 a2 t2) ∧
    (store_document (store_document db none d f1 c1 a1 t1).2
        none d f2 c2 a2 t2).2.length =
      (store_document db none d f1 c1 a1 t1).2.length := by
  have key : rowsWithId (store_document (store_document db none d f1 c1 a1 t1).2
      none d f2 c2 a2 t2).2 d = [mkRow d f2 c2 a2 t2] ∧
      (store_document (store_document db none d f1 c1 a1 t1).2
        none d f2 c2 a2 t2).2.length =
      (store_document db none d f1 c1 a1 t1).2.length := by
    rcases Nat.lt_or_ge 0 (rowsWithId db d).length with hpos | hzero
    · -- a row with id d already exists: both stores take the update branch
      have h1 := store_document_update db d f1 c1 a1 t1 hpos
      have hr1 : rowsWithId (store_document db none d f1 c1 a1 t1).2 d =
          (rowsWithId db d).map (fun _ => mkRow d f1 c1 a1 t1) := by
        rw [h1]
        exact rowsWithId_map_update db d f1 c1 a1 t1
      have hlen1 : 0 < (rowsWithId (store_document db none d f1 c1 a1 t1).2 d).length := by
        rw [hr1, List.length_map]
        exact hpos
      have h2 := store_document_update (store_document db none d f1 c1 a1 t1).2
        d f2 c2 a2 t2 hlen1
      have hone : (rowsWithId db d).length = 1 := Nat.le_antisymm hd hpos
      obtain ⟨r, hr⟩ := List.length_eq_one.mp hone
      constructor
      · rw [h2, rowsWithId_map_update, hr1, hr]
        rfl
      · rw [h2, List.length_map]
    · -- no row with id d: first store inserts, second updates
      have hz : rowsWithId db d = [] := by
        cases hnil : rowsWithId db d with
        | nil => rfl
        | cons x xs => rw [hnil] at hzero; simp at hzero
      have h1 := store_document_insert db d f1 c1 a1 t1 hz
      have hr1 : rowsWithId (store_document db none d f1 c1 a1 t1).2 d =
          [mkRow d f1 c1 a1 t1] := by
        rw [h1, rowsWithId_append_one, hz,
          if_pos (show (mkRow d f1 c1 a1 t1).document_id = d from rfl)]
        rfl
      have hlen1 : 0 < (rowsWithId (store_document db none d f1 c1 a1 t1).2 d).length := by
        rw [hr1]
        exact Nat.zero_lt_one
      have h2 := store_document_update (store_document db none d f1 c1 a1 t1).2
        d f2 c2 a2 t2 hlen1
      constructor
      · rw [h2, rowsWithId_map_update, hr1]
        rfl
      · rw [h2, List.length_map]
  refine ⟨key.1, ?_, key.2⟩
  unfold get_document
  rw [key.1]
  rfl

theorem upsert_single_record_witness :
    rowsWithId (store_document (store_document [] none "d" "f1" "c1"
        { statistics := none } 1).2 none "d" "f2" "c2"
        { statistics := none } 2).2 "d" =
      [mkRow "d" "f2" "c2" { statistics := none } 2] ∧
    get_document (store_document (store_document [] none "d" "f1" "c1"
        { statistics := none } 1).2 none "d" "f2" "c2"
        { statistics := none } 2).2 none "d" =
      some (mkRow "d" "f2" "c2" { statistics := none } 2) ∧
    (store_document (store_document [] none "d" "f1" "c1"
        { statistics := none } 1).2 none "d" "f2" "c2"
        { statistics := none } 2).2.length =
      (store_document [] none "d" "f1" "c1" { statistics := none } 1).2.length :=
  upsert_single_record [] "d" "f1" "c1" "f2" "c2"
    { statistics := none } { statistics := none } 1 2 (by decide)


theorem maxByTimestamp_cons_none (r : Row) (rest : List Row)
    (h : maxByTimestamp rest = none) :
    maxByTimestamp (r :: rest) = some r := by
  unfold maxByTimestamp
  rw [h]

theorem maxByTimestamp_cons_some (r m2 : Row) (rest : List Row)
    (h : maxByTimestamp rest = some m2) :
    maxByTimestamp (r :: rest) =
      if m2.upload_timestamp ≤ r.upload_timestamp then some r else some m2 := by
  unfold maxByTimestamp
  rw [h]

theorem maxByTimestamp_mem : ∀ (l : List Row) (m : Row),
    maxByTimestamp l = some m → m ∈ l
  | [], m, h => by cases h
  | r :: rest, m, h => by
    cases hr : maxByTimestamp rest with
    | none =>
      rw [maxByTimestamp_cons_none r rest hr] at h
      cases h
      exact List.Mem.head _
    | some m2 =>
      rw [maxByTimestamp_cons_some r m2 rest hr] at h
      by_cases hle : m2.upload_timestamp ≤ r.upload_timestamp
      · rw [if_pos hle] at h
        cases h
        exact List.Mem.head _
      · rw [if_neg hle] at h
        cases h
        exact List.Mem.tail _ (maxByTimestamp_mem rest _ hr)

theorem maxByTimestamp_none : ∀ (l : List Row),
    maxByTimestamp l = none → l = []
  | [], _ => rfl
  | r :: rest, h => by
    cases hr : maxByTimestamp rest with
    | none =>
      rw [maxByTimestamp_cons_none r rest hr] at h
      cases h
    | some m2 =>
      rw [maxByTimestamp_cons_some r m2 rest hr] at h
      by_cases hle : m2.upload_timestamp ≤ r.upload_timestamp
      · rw [if_pos hle] at h
        cases h
      · rw [if_neg hle] at h
        cases h

theorem maxByTimestamp_ge : ∀ (l : List Row) (m : Row),
    maxByTimestamp l = some m → ∀ x ∈ l, x.upload_timestamp ≤ m.upload_timestamp
  | [], m, h => by cases h
  | r :: rest, m, h => by
    intro x hx
    cases hr : maxByTimestamp rest with
    | none =>
      rw [maxByTimestamp_cons_none r rest hr] at h
      cases h
      have hnil : rest = [] := maxByTimestamp_none rest hr
      subst hnil
      rcases List.mem_cons.mp hx with rfl | hx2
      · exact Nat.le_refl _
      · simp at hx2
    | some m2 =>
      rw [maxByTimestamp_cons_some r m2 rest hr] at h
      by_cases hle : m2.upload_timestamp ≤ r.upload_timestamp
      · rw [if_pos hle] at h
        cases h
        rcases List.mem_cons.mp hx with rfl | hx2
        · exact Nat.le_refl _
        · exact Nat.le_trans (maxByTimestamp_ge rest m2 hr x hx2) hle
      · rw [if_neg hle] at h
        cases h
        rcases List.mem_cons.mp hx with rfl | hx2
        · omega
        · exact maxByTimestamp_ge rest m hr x hx2

/-- C5: get_document_by_filename returns, among the stored records
sharing the requested filename, one whose upload_timestamp is maximal
(the most recently written one under the descending timestamp order),
and returns none exactly when no stored record has that filename. -/
theorem filename_lookup_most_recent (db : DB) (fn : String) :
    ((∀ r ∈ db, r.filename ≠ fn) → get_document_by_filename db none fn = none) ∧
    (∀ r ∈ db, r.filename = fn →
      ∃ m, get_document_by_filename db none fn = some m ∧ m ∈ db ∧ m.filename = fn ∧
        ∀ r2 ∈ db, r2.filename = fn → r2.upload_timestamp ≤ m.upload_timestamp) := by
  constructor
  · intro h
    have hnil : db.filter (fun r => r.filename = fn) = [] := by
      apply List.filter_eq_nil_iff.mpr
      intro r hr
      simpa using h r hr
    show maxByTimestamp (db.filter (fun r => r.filename = fn)) = none
    rw [hnil]
    rfl
  · intro r hr hfn
    have hmem : r ∈ db.filter (fun x => x.filename = fn) :=
      List.mem_filter.mpr ⟨hr, by simpa using hfn⟩
    cases hmax : maxByTimestamp (db.filter (fun x => x.filename = fn)) with
    | none =>
      rw [maxByTimestamp_none _ hmax] at hmem
      simp at hmem
    | some m =>
      have hm := maxByTimestamp_mem _ _ hmax
      have hmdb := List.mem_filter.mp hm
      refine ⟨m, hmax, hmdb.1, by simpa using hmdb.2, ?_⟩
      intro r2 hr2 hfn2
      exact maxByTimestamp_ge _ _ hmax r2
        (List.mem_filter.mpr ⟨hr2, by simpa using hfn2⟩)

theorem filename_lookup_most_recent_witness :
    ∃ m, get_document_by_filename [demoRowA, demoRowB] none "report.pdf" = some m ∧
      m ∈ [demoRowA, demoRowB] ∧ m.filename = "report.pdf" ∧
      ∀ r2 ∈ [demoRowA, demoRowB], r2.filename = "report.pdf" →
        r2.upload_timestamp ≤ m.upload_timestamp :=
  (filename_lookup_most_recent [demoRowA, demoRowB] "report.pdf").2
    demoRowA (List.Mem.head _) rfl

theorem acquireConnection_mem : ∀ (l : List Conn) (c : Conn) (rest : List Conn),
    acquireConnection l = some (c, rest) → c ∈ l
  | [], _, _, h => by cases h
  | x :: xs, c, rest, h => by
    cases h
    exact List.Mem.head _

/-- C8: the finally block of the pool probes every released connection:
a live connection is re-enqueued; a connection failing the probe is
discarded — it is not in the resulting pool and can never be lent again
— and the freshly constructed replacement is enqueued in its place, so
the pool holds as many connections as if the release had succeeded; a
failure to construct the replacement leaves the (degraded) pool state
and propagates no exception to the releasing caller (the release is a
total function in every case). -/
theorem pool_release_heals (pool : List Conn) (conn nc : Conn)
    (hout : conn ∉ pool) (hne : conn ≠ nc) :
    releaseConnection pool conn true (some nc) = pool ++ [conn] ∧
    releaseConnection pool conn false (some nc) = pool ++ [nc] ∧
    conn ∉ releaseConnection pool conn false (some nc) ∧
    (releaseConnection pool conn false (some nc)).length =
      (releaseConnection pool conn true (some nc)).length ∧
    (∀ c2 rest, acquireConnection (releaseConnection pool conn false (some nc)) =
      some (c2, rest) → c2 ≠ conn) ∧
    releaseConnection pool conn false none = pool := by
  refine ⟨rfl, rfl, ?_, by simp [releaseConnection], ?_, rfl⟩
  · simp only [releaseConnection, if_neg Bool.false_ne_true, List.mem_append,
      List.mem_singleton]
    rintro (h | h)
    · exact hout h
    · exact hne h
  · intro c2 rest hacq he
    subst he
    have hc2 := acquireConnection_mem _ _ _ hacq
    simp only [releaseConnection, if_neg Bool.false_ne_true, List.mem_append,
      List.mem_singleton] at hc2
    rcases hc2 with h | h
    · exact hout h
    · exact hne h

theorem pool_release_heals_witness :
    releaseConnection [⟨0⟩] ⟨1⟩ true (some ⟨2⟩) = [⟨0⟩, ⟨1⟩] ∧
    releaseConnection [⟨0⟩] ⟨1⟩ false (some ⟨2⟩) = [⟨0⟩, ⟨2⟩] ∧
    (⟨1⟩ : Conn) ∉ releaseConnection [⟨0⟩] ⟨1⟩ false (some ⟨2⟩) ∧
    (releaseConnection [⟨0⟩] ⟨1⟩ false (some ⟨2⟩)).length =
      (releaseConnection [⟨0⟩] ⟨1⟩ true (some ⟨2⟩)).length ∧
    (∀ c2 rest, acquireConnection (releaseConnection [⟨0⟩] ⟨1⟩ false (some ⟨2⟩)) =
      some (c2, rest) → c2 ≠ ⟨1⟩) ∧
    releaseConnection [⟨0⟩] ⟨1⟩ false none = [⟨0⟩] :=
  pool_release_heals [⟨0⟩] ⟨1⟩ ⟨2⟩ (by decide) (by decide)

/-- C10: store_document tolerates an analysis_result missing the
statistics block, the total_findings key, the findings_by_type map or
its email/ssn entries: the write proceeds (store returns true for
every analysis_result when no fault occurs) and each missing piece
makes the corresponding denormalized counter of the written row default
to 0. -/
theorem store_tolerates_missing_stats (db : DB) (id fn content : String)
    (now : Nat) (ar : AnalysisResult) :
    (store_document db none id fn content ar now).1 = true ∧
    (ar.statistics = none →
      (mkRow id fn content ar now).sensitive_info_count = 0 ∧
      (mkRow id fn content ar now).email_count = 0 ∧
      (mkRow id fn content ar now).ssn_count = 0) ∧
    (∀ s, ar.statistics = some s → s.total_findings = none →
      (mkRow id fn content ar now).sensitive_info_count = 0) ∧
    (∀ s, ar.statistics = some s → s.findings_by_type = none →
      (mkRow id fn content ar now).email_count = 0 ∧
      (mkRow id fn content ar now).ssn_count = 0) ∧
    (∀ s m, ar.statistics = some s → s.findings_by_type = some m →
      m.find? (fun p => p.1 = "email") = none →
      (mkRow id fn content ar now).email_count = 0) ∧
    (∀ s m, ar.statistics = some s → s.findings_by_type = some m →
      m.find? (fun p => p.1 = "ssn") = none →
      (mkRow id fn content ar now).ssn_count = 0) := by
  refine ⟨?_, ?_, ?_, ?_, ?_, ?_⟩
  · by_cases hpos : 0 < (rowsWithId db id).length
    · rw [store_document_update db id fn content ar now hpos]
    · rw [store_document_insert db id fn content ar now
        (List.length_eq_zero.mp (Nat.eq_zero_of_not_pos hpos))]
  · intro h
    simp [mkRow, docCounters, h, dictGetD]
  · intro s hs h
    simp [mkRow, docCounters, hs, h]
  · intro s hs h
    simp [mkRow, docCounters, hs, h, dictGetD]
  · intro s m hs hm h
    simp [mkRow, docCounters, hs, hm, dictGetD, h]
  · intro s m hs hm h
    simp [mkRow, docCounters, hs, hm, dictGetD, h]

theorem store_tolerates_missing_stats_witness :
    (store_document [] none "d" "f" "c" { statistics := none } 0).1 = true ∧
    (mkRow "d" "f" "c" { statistics := none } 0).sensitive_info_count = 0 ∧
    (mkRow "d" "f" "c" { statistics := none } 0).email_count = 0 ∧
    (mkRow "d" "f" "c" { statistics := none } 0).ssn_count = 0 := by
  obtain ⟨h1, h2, -⟩ := store_tolerates_missing_stats [] "d" "f" "c" 0
    { statistics := none }
  obtain ⟨ha, hb, hc⟩ := h2 rfl
  exact ⟨h1, ha, hb, hc⟩

end ThirdLaw
